import Mathlib

/-!
Verification development for the mcpx CLI broker.

The definitions below are a shallow embedding of the core modules of the
repository: the retry policy and transient-error classifier (client module),
the connection pool of the daemon (`daemon.ts`), the bounded-concurrency
runner and call router (`registry.ts` command files), the config hashing
(`errors.ts` / `config.ts`) and the glob matcher used for disabled tools.

JavaScript numbers are modelled as `Rat` where fractional values can occur
(delays, budgets) and as `Nat`/`Int` where the source only ever holds
integers.  External effects (MCP sessions, wall-clock reads, randomness)
are modelled by explicit parameters: session handles are natural numbers
drawn from a fresh counter, `Date.now()` readings and `Math.random()`
outcomes are inputs to the functions that consume them.
-/

namespace Mcpx

/-! ## Retry policy: transient-error classification (client module)

`isTransientError` first checks `error.code` against a fixed list and then
falls back to regular-expression tests on the message.  The regexes of the
source are simple enough to be translated into direct executable matchers
over `List Char`; matching is case-insensitive where the source uses the
`i` flag (modelled by lower-casing the message first). -/

/-- The transient error codes of `isTransientError`. -/
def transientCodes : List String :=
  ["ECONNREFUSED", "ECONNRESET", "ETIMEDOUT", "ENOTFOUND",
   "EPIPE", "ENETUNREACH", "EHOSTUNREACH", "EAI_AGAIN"]

/-- JavaScript regex word character (`\w`): letters, digits, underscore. -/
def isWordChar (c : Char) : Bool := c.isAlphanum || c == '_'

/-- JavaScript regex whitespace (`\s`), restricted to the ASCII space forms. -/
def isSpaceChar (c : Char) : Bool :=
  c == ' ' || c == '\t' || c == '\n' || c == '\r' || c == '\x0b' || c == '\x0c'

/-- The HTTP status codes of the transient-message regexes, as char lists. -/
def statusCodes : List (List Char) :=
  [['5', '0', '2'], ['5', '0', '3'], ['5', '0', '4'], ['4', '2', '9']]

/-- Match a literal at the head of `s`; on success return the rest of `s`. -/
def dropLit : List Char → List Char → Option (List Char)
  | [], s => some s
  | _ :: _, [] => none
  | c :: cs, d :: ds => if d == c then dropLit cs ds else none

/-- Match any of the given literals at the head of `s` (regex alternation). -/
def dropAnyLit (lits : List (List Char)) (s : List Char) : Option (List Char) :=
  match lits with
  | [] => none
  | l :: ls =>
    match dropLit l s with
    | some rest => some rest
    | none => dropAnyLit ls s

/-- Word boundary after a word character: end of input or a non-word char. -/
def boundaryAfter : List Char → Bool
  | [] => true
  | c :: _ => !isWordChar c

/-- Word boundary before a word character: start of input or a non-word char. -/
def boundaryBefore : Option Char → Bool
  | none => true
  | some c => !isWordChar c

/-- `\s+` followed by the maximal run of further whitespace (the tokens that
follow in every use site start with a non-space, so greedy matching is
equivalent to the regex). -/
def dropSpaces1 : List Char → Option (List Char)
  | [] => none
  | c :: rest => if isSpaceChar c then some (rest.dropWhile isSpaceChar) else none

/-- Search the message for a position where `p prev suffix` holds, where
`prev` is the character immediately before the position. -/
def searchWithPrev (p : Option Char → List Char → Bool) :
    Option Char → List Char → Bool
  | prev, [] => p prev []
  | prev, c :: rest => p prev (c :: rest) || searchWithPrev p (some c) rest

/-- Regex `^(502|503|504|429)\b` applied to the message. -/
def matchesLeadingStatus (s : List Char) : Bool :=
  match dropAnyLit statusCodes s with
  | some rest => boundaryAfter rest
  | none => false

/-- Tail `\s*(502|503|504|429)\b` shared by the http/status regex. -/
def tailStatusCode (s : List Char) : Bool :=
  match dropAnyLit statusCodes (s.dropWhile isSpaceChar) with
  | some rest => boundaryAfter rest
  | none => false

/-- Regex `\b(http|status(\s+code)?)\s*(502|503|504|429)\b` at one position
(the message is already lower-cased for the `i` flag). -/
def matchHttpStatusAt (prev : Option Char) (s : List Char) : Bool :=
  boundaryBefore prev &&
    ((match dropLit ['h', 't', 't', 'p'] s with
      | some rest => tailStatusCode rest
      | none => false) ||
     (match dropLit ['s', 't', 'a', 't', 'u', 's'] s with
      | some rest =>
        (match dropSpaces1 rest with
         | some r2 =>
           (match dropLit ['c', 'o', 'd', 'e'] r2 with
            | some r3 => tailStatusCode r3
            | none => false)
         | none => false) ||
        tailStatusCode rest
      | none => false))

/-- The status phrases of the third transient regex. -/
def statusPhrases : List (List Char) :=
  [('b' :: 'a' :: 'd' :: ' ' :: ['g', 'a', 't', 'e', 'w', 'a', 'y']),
   ('s' :: 'e' :: 'r' :: 'v' :: 'i' :: 'c' :: 'e' :: ' ' ::
      ['u', 'n', 'a', 'v', 'a', 'i', 'l', 'a', 'b', 'l', 'e']),
   ('g' :: 'a' :: 't' :: 'e' :: 'w' :: 'a' :: 'y' :: ' ' ::
      ['t', 'i', 'm', 'e', 'o', 'u', 't']),
   ('t' :: 'o' :: 'o' :: ' ' :: 'm' :: 'a' :: 'n' :: 'y' :: ' ' ::
      ['r', 'e', 'q', 'u', 'e', 's', 't', 's'])]

/-- Regex `\b(502|503|504|429)\s+(bad gateway|service unavailable|gateway
timeout|too many requests)` at one position. -/
def matchCodePhraseAt (prev : Option Char) (s : List Char) : Bool :=
  boundaryBefore prev &&
    (match dropAnyLit statusCodes s with
     | some rest =>
       (match dropSpaces1 rest with
        | some r2 => (dropAnyLit statusPhrases r2).isSome
        | none => false)
     | none => false)

/-- Regex `network\s*(error|fail|unavailable|timeout)` at one position. -/
def matchNetworkAt (_prev : Option Char) (s : List Char) : Bool :=
  match dropLit ['n', 'e', 't', 'w', 'o', 'r', 'k'] s with
  | some rest =>
    (dropAnyLit
      [['e', 'r', 'r', 'o', 'r'], ['f', 'a', 'i', 'l'],
       ['u', 'n', 'a', 'v', 'a', 'i', 'l', 'a', 'b', 'l', 'e'],
       ['t', 'i', 'm', 'e', 'o', 'u', 't']]
      (rest.dropWhile isSpaceChar)).isSome
  | none => false

/-- Regex `connection\s*(reset|refused|timeout)` at one position. -/
def matchConnectionAt (_prev : Option Char) (s : List Char) : Bool :=
  match dropLit ['c', 'o', 'n', 'n', 'e', 'c', 't', 'i', 'o', 'n'] s with
  | some rest =>
    (dropAnyLit
      [['r', 'e', 's', 'e', 't'], ['r', 'e', 'f', 'u', 's', 'e', 'd'],
       ['t', 'i', 'm', 'e', 'o', 'u', 't']]
      (rest.dropWhile isSpaceChar)).isSome
  | none => false

/-- Regex `\btimeout\b` at one position. -/
def matchTimeoutAt (prev : Option Char) (s : List Char) : Bool :=
  boundaryBefore prev &&
    (match dropLit ['t', 'i', 'm', 'e', 'o', 'u', 't'] s with
     | some rest => boundaryAfter rest
     | none => false)

/-- The message-level part of `isTransientError`: the six regex tests, run on
the lower-cased message. -/
def matchesTransientMessage (message : String) : Bool :=
  let m := message.toList.map Char.toLower
  matchesLeadingStatus m ||
  searchWithPrev matchHttpStatusAt none m ||
  searchWithPrev matchCodePhraseAt none m ||
  searchWithPrev matchNetworkAt none m ||
  searchWithPrev matchConnectionAt none m ||
  searchWithPrev matchTimeoutAt none m

/-- An error value as seen by the retry policy: optional `code` and message. -/
structure ErrVal where
  code : Option String
  message : String
  deriving DecidableEq, Repr

/-- `isTransientError`: code in the transient list, else message patterns. -/
def isTransientError (e : ErrVal) : Bool :=
  (match e.code with
   | some c => transientCodes.contains c
   | none => false) ||
  matchesTransientMessage e.message

/-! ## Retry policy: configuration, delays, and the retry loop

`getRetryConfig` derives the configuration from the environment; here the
environment readings (`getTimeoutMs`, `getMaxRetries`, `getRetryDelayMs`)
are parameters.  JavaScript arithmetic on the budget is over floats, so the
millisecond values are `Rat`.  `Math.random()` is a parameter `r` with
`0 ≤ r < 1`; `Date.now()` readings are supplied as elapsed-time functions. -/

/-- `RetryConfig` of the client module. -/
structure RetryConfig where
  maxRetries : Nat
  baseDelayMs : Rat
  maxDelayMs : Rat
  totalBudgetMs : Rat
  deriving DecidableEq, Repr

/-- `getRetryConfig`: `retryBudgetMs = max(0, totalBudgetMs - 5000)` and
`maxDelayMs = min(10000, retryBudgetMs / 2)`. -/
def getRetryConfig (totalBudgetMs : Rat) (maxRetries : Nat)
    (baseDelayMs : Rat) : RetryConfig :=
  let retryBudgetMs := max 0 (totalBudgetMs - 5000)
  { maxRetries := maxRetries
    baseDelayMs := baseDelayMs
    maxDelayMs := min 10000 (retryBudgetMs / 2)
    totalBudgetMs := totalBudgetMs }

/-- The spec formula for the derived retry ceiling, as written in the spec:
`maxDelayMs = min(10_000, (totalBudgetMs − 5_000) / 2)` with no clamping of
the difference at zero. -/
def specMaxDelayMs (totalBudgetMs : Rat) : Rat :=
  min 10000 ((totalBudgetMs - 5000) / 2)

/-- `calculateDelay`: exponential delay capped at `maxDelayMs`, with uniform
jitter of ±25 %; `r` is the `Math.random()` outcome.  `Math.round` rounds
half-way cases toward positive infinity, which is Lean's `round`. -/
def calculateDelay (attempt : Nat) (config : RetryConfig) (r : Rat) : Int :=
  let exponentialDelay := config.baseDelayMs * 2 ^ attempt
  let cappedDelay := min exponentialDelay config.maxDelayMs
  let jitter := cappedDelay * (1 / 4) * (r * 2 - 1)
  round (cappedDelay + jitter)

/-- The capped (pre-jitter) delay for an attempt. -/
def cappedDelayFor (attempt : Nat) (config : RetryConfig) : Rat :=
  min (config.baseDelayMs * 2 ^ attempt) config.maxDelayMs

/-- Observable actions of one `withRetry` run. -/
inductive RetryEvent where
  | attemptEv (n : Nat)
  | sleepEv (d : Rat)
  deriving DecidableEq, Repr

/-- One run of the `withRetry` loop from a given attempt number with the
given remaining loop iterations (`fuel`), threading `lastError`.

  * `outcome n` is the result of the `n`-th call of `fn`;
  * `elapsedTop n` is the elapsed time read at the top of iteration `n`;
  * `elapsedFail n` is the elapsed time read after the failure of attempt `n`;
  * `rand n` is the `Math.random()` outcome used for the delay of attempt `n`.

The result pairs the trace of events with either the success value or the
thrown error (`none` models the `undefined` of a throw before any attempt). -/
def withRetryAux {T : Type} (config : RetryConfig)
    (outcome : Nat → Except ErrVal T) (elapsedTop elapsedFail : Nat → Rat)
    (rand : Nat → Rat) :
    Nat → Nat → Option ErrVal → List RetryEvent × Except (Option ErrVal) T
  | _, 0, lastError => ([], .error lastError)
  | attempt, fuel + 1, lastError =>
    if config.totalBudgetMs ≤ elapsedTop attempt then
      ([], .error lastError)
    else
      match outcome attempt with
      | .ok v => ([.attemptEv attempt], .ok v)
      | .error e =>
        let remainingBudget := config.totalBudgetMs - elapsedFail attempt
        if attempt < config.maxRetries ∧ isTransientError e ∧
            1000 < remainingBudget then
          let delay :=
            min ((calculateDelay attempt config (rand attempt) : Int) : Rat)
              (remainingBudget - 1000)
          let rest := withRetryAux config outcome elapsedTop elapsedFail rand
            (attempt + 1) fuel (some e)
          (.attemptEv attempt :: .sleepEv delay :: rest.1, rest.2)
        else
          ([.attemptEv attempt], .error (some e))

/-- `withRetry`: run the loop from attempt 0; the `for` loop performs at most
`maxRetries + 1` iterations. -/
def withRetry {T : Type} (config : RetryConfig)
    (outcome : Nat → Except ErrVal T) (elapsedTop elapsedFail : Nat → Rat)
    (rand : Nat → Rat) : List RetryEvent × Except (Option ErrVal) T :=
  withRetryAux config outcome elapsedTop elapsedFail rand 0
    (config.maxRetries + 1) none

/-! ## Config hashing (`sortObjectKeys` / `computeConfigHash`)

Server configs are JSON values.  `computeConfigHash` sorts object keys
recursively, serializes, hashes with SHA-256 and keeps the first 16 hex
characters.  The SHA-256 digest is an external library call
(`Bun.CryptoHasher`); it is modelled as a parameter `digest : String →
String`, so every theorem below holds for the real digest function. -/

/-- JSON values (numbers restricted to integers, which covers the config
shapes the CLI accepts). -/
inductive Json where
  | null : Json
  | bool : Bool → Json
  | num : Int → Json
  | str : String → Json
  | arr : List Json → Json
  | obj : List (String × Json) → Json
  deriving Repr

/-- Insert a field into a key-sorted field list (models `Object.keys.sort`). -/
def insertField (p : String × Json) : List (String × Json) → List (String × Json)
  | [] => [p]
  | q :: qs => if p.1 < q.1 then p :: q :: qs else q :: insertField p qs

/-- Sort a field list by key. -/
def sortFieldsByKey (fs : List (String × Json)) : List (String × Json) :=
  fs.foldr insertField []

mutual

/-- `sortObjectKeys`: recursively sort the keys of every object. -/
def sortObjectKeys : Json → Json
  | .null => .null
  | .bool b => .bool b
  | .num n => .num n
  | .str s => .str s
  | .arr xs => .arr (sortJsonArr xs)
  | .obj fs => .obj (sortFieldsByKey (sortJsonFields fs))

/-- `sortObjectKeys` mapped over an array. -/
def sortJsonArr : List Json → List Json
  | [] => []
  | x :: xs => sortObjectKeys x :: sortJsonArr xs

/-- `sortObjectKeys` mapped over the values of a field list. -/
def sortJsonFields : List (String × Json) → List (String × Json)
  | [] => []
  | (k, v) :: fs => (k, sortObjectKeys v) :: sortJsonFields fs

end

/-- JSON string escaping (restricted to quote and backslash, the characters
that occur in server configs). -/
def escapeJsonChar (c : Char) : List Char :=
  if c = '"' then ['\\', '"'] else if c = '\\' then ['\\', '\\'] else [c]

/-- A JSON string literal. -/
def jsonQuote (s : String) : String :=
  String.mk ('"' :: (s.toList.map escapeJsonChar).flatten ++ ['"'])

mutual

/-- `JSON.stringify` on the JSON model. -/
def serialize : Json → String
  | .null => "null"
  | .bool true => "true"
  | .bool false => "false"
  | .num n => toString n
  | .str s => jsonQuote s
  | .arr xs => "[" ++ serializeArr xs ++ "]"
  | .obj fs => "\x7b" ++ serializeFields fs ++ "\x7d"

/-- Comma-separated serialization of array elements. -/
def serializeArr : List Json → String
  | [] => ""
  | [x] => serialize x
  | x :: y :: xs => serialize x ++ "," ++ serializeArr (y :: xs)

/-- Comma-separated serialization of object fields. -/
def serializeFields : List (String × Json) → String
  | [] => ""
  | [(k, v)] => jsonQuote k ++ ":" ++ serialize v
  | (k, v) :: f :: fs =>
    jsonQuote k ++ ":" ++ serialize v ++ "," ++ serializeFields (f :: fs)

end

/-- `computeConfigHash`: digest of the key-sorted serialization, truncated to
16 hex characters.  `digest` stands for SHA-256 in hex. -/
def computeConfigHash (digest : String → String) (config : Json) : String :=
  (digest (serialize (sortObjectKeys config))).take 16

/- `computeConfigHash` is only ever compared for equality; keeping it
irreducible stops the elaborator from unfolding the string machinery. -/
attribute [irreducible] computeConfigHash

/-! ## Connection pool (`daemon.ts`)

MCP sessions are external objects; they are modelled as handles drawn from
a fresh counter `nextConnection`, and closing a session appends its handle
to `closed`.  `Date.now()` is the explicit parameter `now`. -/

/-- A pool entry of the daemon's `ConnectionPool`. -/
structure PoolEntry where
  connection : Nat
  config : Json
  configSource : String
  configHash : String
  lastUsed : Nat
  startedAt : Nat

/-- The daemon pool state: the keyed map (as an insertion-ordered list), the
idle-eviction timer flag, the fresh-session counter and the closed set. -/
structure PoolState where
  pool : List (String × PoolEntry)
  idleActive : Bool
  idleTimeoutMs : Nat
  nextConnection : Nat
  closed : List Nat

/-- `Map.get`. -/
def lookupKey (name : String) : List (String × PoolEntry) → Option PoolEntry
  | [] => none
  | (k, v) :: rest => if k = name then some v else lookupKey name rest

/-- `Map.delete`. -/
def eraseKey (name : String) (l : List (String × PoolEntry)) :
    List (String × PoolEntry) :=
  l.filter (fun p => p.1 ≠ name)

/-- The in-place `existing.lastUsed = Date.now()` mutation on the entry
stored under the key (keys are unique in a `Map`). -/
def touchEntry (name : String) (now : Nat) :
    List (String × PoolEntry) → List (String × PoolEntry)
  | [] => []
  | (k, v) :: rest =>
    if k = name then (k, { v with lastUsed := now }) :: rest
    else (k, v) :: touchEntry name now rest

/-- The pool state right after `new ConnectionPool(idleTimeoutMs)` (the
constructor starts the idle check). -/
def initPool (idleTimeoutMs : Nat) : PoolState :=
  { pool := [], idleActive := true, idleTimeoutMs := idleTimeoutMs
    nextConnection := 0, closed := [] }

/-- The result triple of `ConnectionPool.acquire`. -/
structure AcquireResult where
  connection : Nat
  alreadyConnected : Bool
  reconnected : Bool
  deriving DecidableEq, Repr

namespace ConnectionPool

/-- `ConnectionPool.acquire`: reuse on equal hash, reconnect on a changed
hash, fresh connect otherwise. -/
def acquire (digest : String → String) (s : PoolState) (serverName : String)
    (config : Json) (configSource : String) (now : Nat) :
    AcquireResult × PoolState :=
  let newHash := computeConfigHash digest config
  match lookupKey serverName s.pool with
  | some existing =>
    if existing.configHash ≠ newHash then
      let s1 : PoolState :=
        { s with closed := s.closed ++ [existing.connection]
                 pool := eraseKey serverName s.pool }
      let connection := s1.nextConnection
      (⟨connection, false, true⟩,
       { s1 with
           nextConnection := connection + 1
           pool := s1.pool ++
             [(serverName, ⟨connection, config, configSource, newHash, now, now⟩)] })
    else
      (⟨existing.connection, true, false⟩,
       { s with pool := touchEntry serverName now s.pool })
  | none =>
    let connection := s.nextConnection
    (⟨connection, false, false⟩,
     { s with
         nextConnection := connection + 1
         pool := s.pool ++
           [(serverName, ⟨connection, config, configSource, newHash, now, now⟩)] })

/-- `ConnectionPool.has`. -/
def has (s : PoolState) (serverName : String) : Bool :=
  (lookupKey serverName s.pool).isSome

/-- `ConnectionPool.release`: close and remove if present. -/
def release (s : PoolState) (serverName : String) : Bool × PoolState :=
  match lookupKey serverName s.pool with
  | some entry =>
    (true, { s with closed := s.closed ++ [entry.connection]
                    pool := eraseKey serverName s.pool })
  | none => (false, s)

/-- `ConnectionPool.releaseAll`: close everything, clear the map, stop the
idle check, return the previously held names. -/
def releaseAll (s : PoolState) : List String × PoolState :=
  (s.pool.map Prod.fst,
   { s with closed := s.closed ++ s.pool.map (fun p => p.2.connection)
            pool := []
            idleActive := false })

/-- `ConnectionPool.list`. -/
def list (s : PoolState) : List String := s.pool.map Prod.fst

/-- `ConnectionPool.size`. -/
def size (s : PoolState) : Nat := s.pool.length

end ConnectionPool

/-- One observable pool operation, as driven by the daemon's request handler
or by the idle-eviction timer. -/
inductive PoolStep (digest : String → String) : PoolState → PoolState → Prop
  | acquireStep (s : PoolState) (serverName : String) (config : Json)
      (configSource : String) (now : Nat) :
      PoolStep digest s
        (ConnectionPool.acquire digest s serverName config configSource now).2
  | releaseStep (s : PoolState) (serverName : String) :
      PoolStep digest s (ConnectionPool.release s serverName).2
  | releaseAllStep (s : PoolState) :
      PoolStep digest s (ConnectionPool.releaseAll s).2
  | evictStep (s : PoolState) (serverName : String) (now : Nat) (e : PoolEntry)
      (hlook : lookupKey serverName s.pool = some e)
      (hidle : s.idleTimeoutMs < now - e.lastUsed) :
      PoolStep digest s (ConnectionPool.release s serverName).2

/-- Pool states reachable from the constructor state. -/
def PoolReachable (digest : String → String) (idleTimeoutMs : Nat)
    (s : PoolState) : Prop :=
  Relation.ReflTransGen (PoolStep digest) (initPool idleTimeoutMs) s

/-- The hash invariant of §4.5: every entry's stored `configHash` is the
hash of its stored config. -/
def HashInv (digest : String → String) (s : PoolState) : Prop :=
  ∀ p ∈ s.pool, p.2.configHash = computeConfigHash digest p.2.config

/-- Freshness invariant: every pooled session handle is below the fresh
counter (a fresh connection is distinct from every pooled one). -/
def ConnBound (s : PoolState) : Prop :=
  ∀ p ∈ s.pool, p.2.connection < s.nextConnection

/-! ## Concurrency runner (`processWithConcurrency`)

The runner is an async worker loop over a shared monotone counter.  The
single-threaded event loop interleaves the workers at their `await` points;
the model below is a small-step transition system whose interleavings are a
superset of the ones the event loop can produce, so every property proved
for all reachable terminal states holds for the real runner.  A worker is
`running` when it is at the loop head, `awaiting i` while its processor call
for index `i` is pending, and `done` once its loop has exited. -/

/-- Status of one runner worker. -/
inductive WStatus where
  | running : WStatus
  | awaiting : Nat → WStatus
  | done : WStatus
  deriving DecidableEq, Repr

/-- State of one `processWithConcurrency` run: the shared `currentIndex`
counter, the `results` array (`none` = unfilled slot) and the workers. -/
structure RunState (R : Type) where
  counter : Nat
  results : List (Option R)
  workers : List WStatus

/-- Initial runner state: `results = new Array(items.length)` and
`min(maxConcurrency, items.length)` workers at their loop heads. -/
def initRun (R : Type) (maxConcurrency : Nat) (numItems : Nat) : RunState R :=
  { counter := 0
    results := List.replicate numItems none
    workers := List.replicate (min maxConcurrency numItems) .running }

/-- One event-loop transition of the runner: a worker at the loop head either
claims `currentIndex++` (when the counter is below `items.length`) or exits
its loop; a pending processor call resolves and stores its result at the
claimed index. -/
inductive RunnerStep {T R : Type} (items : List T) (f : T → Nat → R) :
    RunState R → RunState R → Prop
  | claim (s : RunState R) (w : Nat)
      (hw : s.workers[w]? = some WStatus.running)
      (hc : s.counter < items.length) :
      RunnerStep items f s
        { counter := s.counter + 1
          results := s.results
          workers := s.workers.set w (.awaiting s.counter) }
  | finish (s : RunState R) (w : Nat)
      (hw : s.workers[w]? = some WStatus.running)
      (hc : items.length ≤ s.counter) :
      RunnerStep items f s
        { counter := s.counter
          results := s.results
          workers := s.workers.set w .done }
  | resolve (s : RunState R) (w i : Nat)
      (hw : s.workers[w]? = some (WStatus.awaiting i)) :
      RunnerStep items f s
        { counter := s.counter
          results := s.results.set i (items[i]?.map (fun x => f x i))
          workers := s.workers.set w .running }

/-- Runner states reachable from the initial state. -/
def RunnerReachable {T R : Type} (items : List T) (f : T → Nat → R)
    (maxConcurrency : Nat) (s : RunState R) : Prop :=
  Relation.ReflTransGen (RunnerStep items f)
    (initRun R maxConcurrency items.length) s

/-- The run is finished: `Promise.all(workers)` has resolved, i.e. every
worker has exited its loop. -/
def RunnerDone {R : Type} (s : RunState R) : Prop :=
  ∀ w ∈ s.workers, w = WStatus.done

/-- Inductive invariant of the runner: result and worker arrays keep their
lengths, the counter never passes the item count, every claimed index is
either stored or pending with some worker, pending indices are below the
counter, and a worker can only have exited once the counter is exhausted. -/
def RunnerInv {T R : Type} (items : List T) (f : T → Nat → R) (C : Nat)
    (s : RunState R) : Prop :=
  s.results.length = items.length ∧
  s.workers.length = min C items.length ∧
  s.counter ≤ items.length ∧
  (∀ i : Nat, i < s.counter →
    s.results[i]? = some (items[i]?.map (fun x => f x i)) ∨
    ∃ w : Nat, s.workers[w]? = some (WStatus.awaiting i)) ∧
  (∀ w i : Nat, s.workers[w]? = some (WStatus.awaiting i) → i < s.counter) ∧
  ((∃ w : Nat, s.workers[w]? = some WStatus.done) → items.length ≤ s.counter)

/-! ## Glob matching, target parsing and the call router -/

/-- `pattern.split('*')` (JavaScript `String.split` on a 1-char separator). -/
def splitStar : List Char → List (List Char)
  | [] => [[]]
  | c :: rest =>
    if c = '*' then [] :: splitStar rest
    else
      match splitStar rest with
      | [] => [[c]]
      | s :: ss => (c :: s) :: ss

/-- Match one literal at some position of `s` (the `.*l` of the glob regex)
and hand the remainder to the continuation `k`, trying positions from the
left. -/
def scanFor (l : List Char) (k : List Char → Bool) : List Char → Bool
  | [] => l.isEmpty && k []
  | c :: t =>
    (l.isPrefixOf (c :: t) && k ((c :: t).drop l.length)) || scanFor l k t

/-- Match `.*l₀.*l₁…​.*lₙ$`: the segments in order, with arbitrary gaps
before each and nothing after the last. -/
def matchGaps : List (List Char) → List Char → Bool
  | [], s => s.isEmpty
  | l :: ls, s => scanFor l (matchGaps ls) s

/-- `globMatch`: the source splits the pattern on `*`, escapes each literal
segment and joins with `.*` into an anchored regex; semantically the string
must start with the first segment and contain the remaining segments in
order, the last one at the very end. -/
def globMatch (pattern str : String) : Bool :=
  match splitStar pattern.toList with
  | [] => str.toList.isEmpty
  | l :: ls => l.isPrefixOf str.toList && matchGaps ls (str.toList.drop l.length)

/-- `findDisabledMatch`: first pattern (in map-insertion order) matching the
`server/tool` path, together with its source. -/
def findDisabledMatch (toolPath : String) :
    List (String × String) → Option (String × String)
  | [] => none
  | (pattern, source) :: rest =>
    if globMatch pattern toolPath then some (pattern, source)
    else findDisabledMatch toolPath rest

/-- `parseTarget` helper: split at the first `/` of the char list. -/
def splitFirstSlash : List Char → Option (List Char × List Char)
  | [] => none
  | c :: rest =>
    if c = '/' then some ([], rest)
    else (splitFirstSlash rest).map (fun p => (c :: p.1, p.2))

/-- `parseTarget`: `indexOf('/')`; the server name is the text before the
first slash and the tool name the entire remainder; no slash is the
invalid-target client error (`none`). -/
def parseTarget (target : String) : Option (String × String) :=
  (splitFirstSlash target.toList).map fun p => (String.mk p.1, String.mk p.2)

/-- Exit codes of the CLI (`ErrorCode` in `errors.ts`). -/
def CLIENT_ERROR : Nat := 1
def SERVER_ERROR : Nat := 2
def NETWORK_ERROR : Nat := 3

/-- Where `callCommand` ends up before any result formatting: an error exit
prior to touching a session, a call routed through the daemon, or an
ephemeral connection. -/
inductive CallOutcome where
  | exitError : Nat → String → CallOutcome
  | daemonRoute : String → String → CallOutcome
  | ephemeralRoute : String → String → CallOutcome
  deriving DecidableEq, Repr

/-- The routing skeleton of `callCommand`, with the decisions it consults in
source order: config loading, target parsing, the disabled-tools check, the
server lookup, the per-server tool filter, argument parsing, and the daemon
probe.  The two route constructors are the only outcomes that open (or
reuse) a session. -/
def callCommandRoute (target : String) (configLoaded : Bool)
    (disabledPatterns : List (String × String)) (servers : List String)
    (toolAllowed : String → String → Bool) (argsOk : Bool)
    (daemonHas : String → Bool) : CallOutcome :=
  if ¬ configLoaded then .exitError CLIENT_ERROR "CONFIG_ERROR"
  else
    match parseTarget target with
    | none => .exitError CLIENT_ERROR "INVALID_TARGET"
    | some (serverName, toolName) =>
      match findDisabledMatch (serverName ++ "/" ++ toolName) disabledPatterns with
      | some _ => .exitError CLIENT_ERROR "TOOL_DISABLED"
      | none =>
        if ¬ servers.contains serverName then
          .exitError CLIENT_ERROR "SERVER_NOT_FOUND"
        else if ¬ toolAllowed serverName toolName then
          .exitError CLIENT_ERROR "TOOL_DISABLED"
        else if ¬ argsOk then
          .exitError CLIENT_ERROR "INVALID_JSON_ARGUMENTS"
        else if daemonHas serverName then .daemonRoute serverName toolName
        else .ephemeralRoute serverName toolName

/-! ## Concrete sample values used by witnesses -/

/-- A sample stdio server config. -/
def sampleConfigA : Json := Json.obj [("command", Json.str "a")]

/-- A second sample config differing from `sampleConfigA` in its command. -/
def sampleConfigB : Json := Json.obj [("command", Json.str "b")]

/-- A sample pool entry holding session handle 7. -/
def sampleEntry1 : PoolEntry :=
  { connection := 7, config := sampleConfigA, configSource := "path"
    configHash := "h", lastUsed := 1, startedAt := 1 }

/-- A sample pool state holding `sampleEntry1` under the key `srv`. -/
def sampleState1 : PoolState :=
  { pool := [("srv", sampleEntry1)], idleActive := true
    idleTimeoutMs := 300000, nextConnection := 8, closed := [] }

/-- The entry created by acquiring `sampleConfigA` on the empty pool at
time 5 with the identity digest. -/
def sampleAcquiredEntry : PoolEntry :=
  { connection := 0, config := sampleConfigA, configSource := "cfg"
    configHash := computeConfigHash id sampleConfigA, lastUsed := 5
    startedAt := 5 }

/-- The entry created by acquiring `sampleConfigA` on the empty pool at
time 1 with the identity digest. -/
def sampleEntryC1 : PoolEntry :=
  { connection := 0, config := sampleConfigA, configSource := "cfg"
    configHash := computeConfigHash id sampleConfigA, lastUsed := 1
    startedAt := 1 }

/-- The pool state after that first acquire. -/
def samplePoolAfterFirst : PoolState :=
  { pool := [("srv", sampleEntryC1)], idleActive := true
    idleTimeoutMs := 300000, nextConnection := 1, closed := [] }

/-- The pool state after a second acquire of the same key with the different
config `sampleConfigB` at time 2: session 0 closed, a fresh session 1. -/
def sampleStateReconnect : PoolState :=
  { pool := [("srv",
      { connection := 1, config := sampleConfigB, configSource := "cfg"
        configHash := computeConfigHash id sampleConfigB, lastUsed := 2
        startedAt := 2 })]
    idleActive := true, idleTimeoutMs := 300000, nextConnection := 2
    closed := [0] }

/-- Final state of a one-item runner execution, used by the C3 witness. -/
def sampleRunFinal : RunState Nat :=
  { counter := 1, results := [some 10], workers := [WStatus.done] }

/-! # Theorems -/

/-- Helper for C10: a slash-free string parses to no target. -/
theorem splitFirstSlash_no_slash (l : List Char) (h : '/' ∉ l) :
    splitFirstSlash l = none := by
  induction l with
  | nil => rfl
  | cons c t ih =>
    have hc : c ≠ '/' := fun e => h (e ▸ List.mem_cons_self c t)
    have ht : '/' ∉ t := fun m => h (List.mem_cons_of_mem c m)
    simp [splitFirstSlash, hc, ih ht]

/-- Helper for C10: splitting cuts at the first slash. -/
theorem splitFirstSlash_first (a b : List Char) (h : '/' ∉ a) :
    splitFirstSlash (a ++ '/' :: b) = some (a, b) := by
  induction a with
  | nil => simp [splitFirstSlash]
  | cons c t ih =>
    have hc : c ≠ '/' := fun e => h (e ▸ List.mem_cons_self c t)
    have ht : '/' ∉ t := fun m => h (List.mem_cons_of_mem c m)
    simp [splitFirstSlash, hc, ih ht]

/-- C10: target parsing splits at the first slash only: for every target
with at least one `/`, the server name is the text before the first slash
and the tool name is the entire remainder (which may contain further
slashes); a target with no slash is the invalid-target client error
(`none`). -/
theorem parseTarget_splits_at_first_slash :
    (∀ a b : List Char, '/' ∉ a →
      parseTarget (String.mk (a ++ '/' :: b)) = some (String.mk a, String.mk b)) ∧
    (∀ l : List Char, '/' ∉ l → parseTarget (String.mk l) = none) := by
  constructor
  · intro a b h
    simp [parseTarget, String.toList, splitFirstSlash_first a b h]
  · intro l h
    simp [parseTarget, String.toList, splitFirstSlash_no_slash l h]

/-- C10 witness: `"a/b/c"` addresses server `"a"` and tool `"b/c"`. -/
theorem parseTarget_splits_at_first_slash_witness :
    ('/' ∉ ['a']) ∧ parseTarget "a/b/c" = some ("a", "b/c") :=
  ⟨by decide, parseTarget_splits_at_first_slash.1 ['a'] ['b', '/', 'c'] (by decide)⟩

/-- C7 counterexample: for `totalBudgetMs = 0` (a budget below 5000 ms) the
code clamps the retry budget at zero and yields `maxDelayMs = 0`, while the
spec formula `min(10000, (totalBudgetMs − 5000) / 2)` yields `−2500`. -/
theorem getRetryConfig_maxDelay_counterexample :
    (getRetryConfig 0 3 1000).maxDelayMs = 0 ∧ specMaxDelayMs 0 = -2500 ∧
    (getRetryConfig 0 3 1000).maxDelayMs ≠ specMaxDelayMs 0 := by
  refine ⟨?_, ?_, ?_⟩ <;> norm_num [getRetryConfig, specMaxDelayMs]

/-- C7 (amended): `maxDelayMs = min(10000, max(0, totalBudgetMs − 5000) / 2)`
for every budget; the spec formula `min(10000, (totalBudgetMs − 5000) / 2)`
holds whenever `totalBudgetMs ≥ 5000`. -/
theorem getRetryConfig_maxDelay :
    ∀ totalBudgetMs : Rat, ∀ maxRetries : Nat, ∀ baseDelayMs : Rat,
      (getRetryConfig totalBudgetMs maxRetries baseDelayMs).maxDelayMs =
        min 10000 (max 0 (totalBudgetMs - 5000) / 2) ∧
      (5000 ≤ totalBudgetMs →
        (getRetryConfig totalBudgetMs maxRetries baseDelayMs).maxDelayMs =
          specMaxDelayMs totalBudgetMs) := by
  intro t mr b
  refine ⟨rfl, fun h => ?_⟩
  simp [getRetryConfig, specMaxDelayMs,
    max_eq_right (by linarith : (0 : Rat) ≤ t - 5000)]

/-- C7 witness: at a 15 s budget the derived ceiling meets the spec formula
(both give 5000 ms). -/
theorem getRetryConfig_maxDelay_witness :
    (5000 : Rat) ≤ 15000 ∧
    (getRetryConfig 15000 3 1000).maxDelayMs = specMaxDelayMs 15000 ∧
    specMaxDelayMs 15000 = 5000 :=
  ⟨by norm_num, (getRetryConfig_maxDelay 15000 3 1000).2 (by norm_num), by
    norm_num [specMaxDelayMs]⟩

/-- C6 counterexample: with `baseDelayMs = 3`, attempt 0 and a
`Math.random()` outcome of 0, the capped delay is 3 and the pre-rounding
value is 2.25, but `Math.round` brings the delay down to 2, strictly below
the claimed lower bound `0.75 · min(base · 2⁰, maxDelay) = 2.25`. -/
theorem calculateDelay_bounds_counterexample :
    cappedDelayFor 0 ⟨3, 3, 10000, 1800000⟩ = 3 ∧
    calculateDelay 0 ⟨3, 3, 10000, 1800000⟩ 0 = 2 ∧
    ¬ ((3 : Rat) / 4 * cappedDelayFor 0 ⟨3, 3, 10000, 1800000⟩ ≤
        ((calculateDelay 0 ⟨3, 3, 10000, 1800000⟩ 0 : Int) : Rat)) := by
  have hc : cappedDelayFor 0 ⟨3, 3, 10000, 1800000⟩ = 3 := by
    norm_num [cappedDelayFor]
  have hd : calculateDelay 0 ⟨3, 3, 10000, 1800000⟩ 0 = 2 := by
    simp only [calculateDelay, round_eq]
    norm_num
  refine ⟨hc, hd, ?_⟩
  rw [hc, hd]
  norm_num

/-- C6 (amended): the claimed two-sided jitter bounds hold up to the final
rounding to an integer number of milliseconds: for every attempt, every
configuration with nonnegative delays, and every `Math.random()` outcome
`r ∈ [0, 1)`,
`0.75 · min(base · 2ⁿ, maxDelay) − 1/2 ≤ delay ≤ 1.25 · min(base · 2ⁿ, maxDelay) + 1/2`. -/
theorem calculateDelay_jitter_bounds (config : RetryConfig) (attempt : Nat)
    (r : Rat) (hr0 : 0 ≤ r) (hr1 : r < 1) (hb : 0 ≤ config.baseDelayMs)
    (hm : 0 ≤ config.maxDelayMs) :
    3 / 4 * cappedDelayFor attempt config - 1 / 2 ≤
      ((calculateDelay attempt config r : Int) : Rat) ∧
    ((calculateDelay attempt config r : Int) : Rat) ≤
      5 / 4 * cappedDelayFor attempt config + 1 / 2 := by
  have hc : 0 ≤ cappedDelayFor attempt config := by
    have : (0 : Rat) ≤ config.baseDelayMs * 2 ^ attempt := by positivity
    exact le_min this hm
  have hdef : calculateDelay attempt config r =
      round (cappedDelayFor attempt config +
        cappedDelayFor attempt config * (1 / 4) * (r * 2 - 1)) := rfl
  set c := cappedDelayFor attempt config with hcdef
  set x := c + c * (1 / 4) * (r * 2 - 1) with hx
  have hlo : 3 / 4 * c ≤ x := by nlinarith
  have hhi : x ≤ 5 / 4 * c + 1 / 2 := by nlinarith
  rw [hdef, round_eq]
  constructor
  · have hfl : (x + 1 / 2) - 1 < ((⌊x + 1 / 2⌋ : Int) : Rat) :=
      Int.sub_one_lt_floor (x + 1 / 2)
    linarith
  · have hfl : ((⌊x + 1 / 2⌋ : Int) : Rat) ≤ x + 1 / 2 := Int.floor_le (x + 1 / 2)
    have hhi2 : x ≤ 5 / 4 * c := by nlinarith
    linarith

/-- C6 witness: at `base = 1000`, attempt 0, `r = 1/2` the delay is 1000 and
the widened bounds hold. -/
theorem calculateDelay_jitter_bounds_witness :
    (0 : Rat) ≤ 1 / 2 ∧ (1 / 2 : Rat) < 1 ∧
    (0 : Rat) ≤ 1000 ∧ (0 : Rat) ≤ 10000 ∧
    (3 / 4 * cappedDelayFor 0 ⟨3, 1000, 10000, 1800000⟩ - 1 / 2 ≤
      ((calculateDelay 0 ⟨3, 1000, 10000, 1800000⟩ (1 / 2) : Int) : Rat) ∧
    ((calculateDelay 0 ⟨3, 1000, 10000, 1800000⟩ (1 / 2) : Int) : Rat) ≤
      5 / 4 * cappedDelayFor 0 ⟨3, 1000, 10000, 1800000⟩ + 1 / 2) :=
  ⟨by norm_num, by norm_num, by norm_num, by norm_num,
    calculateDelay_jitter_bounds ⟨3, 1000, 10000, 1800000⟩ 0 (1 / 2)
      (by norm_num) (by norm_num) (by norm_num) (by norm_num)⟩

/-- C4: transient-error classification.  Every error whose code is in the
transient list is transient regardless of its message; every error whose
message matches one of the network/connection/timeout/HTTP-status patterns
is transient regardless of its code; the concrete non-transient errors —
`EACCES` and `ENOENT` with plain messages, HTTP 401/403 messages, and
`validation_error` — are classified non-transient; and representative
messages carrying HTTP 429/502/503/504 at message start or after a
status-word preamble are transient. -/
theorem isTransientError_classification :
    (∀ c : String, transientCodes.contains c = true →
      ∀ msg : String, isTransientError ⟨some c, msg⟩ = true) ∧
    (∀ code : Option String, ∀ msg : String,
      matchesTransientMessage msg = true →
      isTransientError ⟨code, msg⟩ = true) ∧
    isTransientError ⟨some "EACCES", "permission denied, open file"⟩ = false ∧
    isTransientError ⟨some "ENOENT", "no such file or directory"⟩ = false ∧
    isTransientError ⟨none, "401 Unauthorized"⟩ = false ∧
    isTransientError ⟨none, "403 Forbidden"⟩ = false ∧
    isTransientError ⟨none, "validation_error"⟩ = false ∧
    isTransientError ⟨none, "502 Bad Gateway"⟩ = true ∧
    isTransientError ⟨none, "429 Too Many Requests"⟩ = true ∧
    isTransientError ⟨none, "Request failed with status code 503"⟩ = true ∧
    isTransientError ⟨none, "HTTP 504"⟩ = true ∧
    isTransientError ⟨none, "Network error occurred"⟩ = true ∧
    isTransientError ⟨none, "connection refused"⟩ = true ∧
    isTransientError ⟨none, "operation timeout"⟩ = true := by
  refine ⟨fun c hc msg => ?_, fun code msg h => ?_, ?_, ?_, ?_, ?_, ?_, ?_,
    ?_, ?_, ?_, ?_, ?_, ?_⟩
  · have hm : c ∈ transientCodes := by simpa using hc
    simp [isTransientError, hm]
  · cases code <;> simp [isTransientError, h]
  all_goals decide

/-- C4 witness: the theorem applied to the transient code `ECONNREFUSED`
with an uninformative message, and to the bare-timeout message pattern. -/
theorem isTransientError_classification_witness :
    transientCodes.contains "ECONNREFUSED" = true ∧
    isTransientError ⟨some "ECONNREFUSED", "boom"⟩ = true ∧
    matchesTransientMessage "read timeout" = true ∧
    isTransientError ⟨some "OTHER", "read timeout"⟩ = true :=
  ⟨by decide, isTransientError_classification.1 "ECONNREFUSED" (by decide) "boom",
   by decide,
   isTransientError_classification.2.1 (some "OTHER") "read timeout" (by decide)⟩

/-- C8: `releaseAll` returns exactly the previously-held names, closes every
held session, stops the idle-eviction timer, and leaves an empty pool:
`size = 0` and `has k = false` for every key. -/
theorem releaseAll_postcondition :
    ∀ s : PoolState,
      (ConnectionPool.releaseAll s).1 = ConnectionPool.list s ∧
      ConnectionPool.size (ConnectionPool.releaseAll s).2 = 0 ∧
      (∀ k : String, ConnectionPool.has (ConnectionPool.releaseAll s).2 k = false) ∧
      (ConnectionPool.releaseAll s).2.idleActive = false ∧
      (∀ p ∈ s.pool, p.2.connection ∈ (ConnectionPool.releaseAll s).2.closed) := by
  intro s
  refine ⟨rfl, rfl, fun k => rfl, rfl, fun p hp => ?_⟩
  simp only [ConnectionPool.releaseAll, List.mem_append, List.mem_map]
  exact Or.inr ⟨p, hp, rfl⟩

/-- C8 witness: `releaseAll` on a one-entry pool returns that name, closes
its session, and leaves nothing reachable. -/
theorem releaseAll_postcondition_witness :
    ("srv", sampleEntry1) ∈ sampleState1.pool ∧
    sampleEntry1.connection ∈ (ConnectionPool.releaseAll sampleState1).2.closed ∧
    ConnectionPool.has (ConnectionPool.releaseAll sampleState1).2 "srv" = false ∧
    ConnectionPool.size (ConnectionPool.releaseAll sampleState1).2 = 0 :=
  ⟨by simp [sampleState1],
   (releaseAll_postcondition sampleState1).2.2.2.2 ("srv", sampleEntry1)
     (by simp [sampleState1]),
   (releaseAll_postcondition sampleState1).2.2.1 "srv",
   (releaseAll_postcondition sampleState1).2.1⟩

/-- Helper for C9: the trailing empty glob segment matches any remainder. -/
theorem scanFor_nil_matchGaps (l : List Char) :
    scanFor [] (matchGaps []) l = true := by
  induction l with
  | nil => rfl
  | cons c t ih =>
    show ((([] : List Char).isPrefixOf (c :: t) &&
        matchGaps [] ((c :: t).drop 0)) || scanFor [] (matchGaps []) t) = true
    rw [ih]
    simp

/-- Helper for C9: `.*/.*$` matches every char list containing a slash. -/
theorem matchGaps_slash (l : List Char) (h : '/' ∈ l) :
    matchGaps [['/'], []] l = true := by
  induction l with
  | nil => cases h
  | cons c t ih =>
    show ((['/'].isPrefixOf (c :: t) &&
        matchGaps [[]] ((c :: t).drop ['/'].length)) ||
      scanFor ['/'] (matchGaps [[]]) t) = true
    by_cases hc : c = '/'
    · subst hc
      have h2 : matchGaps [[]] (('/' :: t).drop ['/'].length) = true :=
        scanFor_nil_matchGaps t
      rw [h2]
      simp [List.isPrefixOf]
    · have ht : '/' ∈ t := by
        rcases List.mem_cons.mp h with h1 | h1
        · exact absurd h1.symm hc
        · exact h1
      have h2 : scanFor ['/'] (matchGaps [[]]) t = true := ih ht
      rw [h2]
      simp

/-- Helper for C9: the disabled pattern `*/*` matches every `server/tool`
path. -/
theorem globMatch_star_slash_star (serverName toolName : String) :
    globMatch "*/*" (serverName ++ "/" ++ toolName) = true := by
  have hsplit : splitStar ("*/*".toList) = [[], ['/'], []] := rfl
  have hdata : (serverName ++ "/" ++ toolName).toList =
      serverName.data ++ '/' :: toolName.data := by
    simp [String.toList, String.data_append]
  simp only [globMatch, hsplit, hdata, List.isPrefixOf, List.drop_zero,
    Bool.true_and]
  exact matchGaps_slash _ (by simp)

/-- Helper for C9: a matching pattern in the set makes `findDisabledMatch`
return a match. -/
theorem findDisabledMatch_isSome (toolPath : String)
    (patterns : List (String × String))
    (h : ∃ p ∈ patterns, globMatch p.1 toolPath = true) :
    ∃ m, findDisabledMatch toolPath patterns = some m := by
  induction patterns with
  | nil => rcases h with ⟨p, hp, _⟩; cases hp
  | cons q rest ih =>
    rcases q with ⟨pattern, source⟩
    by_cases hq : globMatch pattern toolPath = true
    · exact ⟨(pattern, source), by simp [findDisabledMatch, hq]⟩
    · rcases h with ⟨p, hp, hmatch⟩
      rcases List.mem_cons.mp hp with h1 | h1
      · rw [h1] at hmatch
        exact absurd hmatch hq
      · rcases ih ⟨p, h1, hmatch⟩ with ⟨m, hm⟩
        exact ⟨m, by simp [findDisabledMatch, hq, hm]⟩

/-- C9: the pattern `*/*` matches every `server/tool` path, and whenever the
parsed target matches some disabled pattern, `callCommand` exits with the
client-error code and the disabled-tool error before opening any session
(the outcome is neither a daemon route nor an ephemeral connection, even if
the daemon holds the server). -/
theorem callCommand_refuses_disabled_before_session :
    (∀ serverName toolName : String,
      globMatch "*/*" (serverName ++ "/" ++ toolName) = true) ∧
    (∀ target : String, ∀ patterns : List (String × String),
      ∀ servers : List String, ∀ toolAllowed : String → String → Bool,
      ∀ argsOk : Bool, ∀ daemonHas : String → Bool,
      ∀ serverName toolName : String,
      parseTarget target = some (serverName, toolName) →
      (∃ p ∈ patterns, globMatch p.1 (serverName ++ "/" ++ toolName) = true) →
      callCommandRoute target true patterns servers toolAllowed argsOk daemonHas =
        CallOutcome.exitError CLIENT_ERROR "TOOL_DISABLED") := by
  refine ⟨globMatch_star_slash_star, ?_⟩
  intro target patterns servers toolAllowed argsOk daemonHas serverName toolName
    hparse hmatch
  rcases findDisabledMatch_isSome _ patterns hmatch with ⟨m, hm⟩
  simp [callCommandRoute, hparse, hm]

/-- C9 witness: with the disabled set `{*/*}`, a call to `srv/tool` is
refused with the client-error exit even though the server is configured and
the daemon claims to hold it. -/
theorem callCommand_refuses_disabled_witness :
    parseTarget "srv/tool" = some ("srv", "tool") ∧
    globMatch "*/*" ("srv" ++ "/" ++ "tool") = true ∧
    callCommandRoute "srv/tool" true [("*/*", "cfg")] ["srv"]
      (fun _ _ => true) true (fun _ => true) =
      CallOutcome.exitError CLIENT_ERROR "TOOL_DISABLED" :=
  ⟨by decide, callCommand_refuses_disabled_before_session.1 "srv" "tool",
   callCommand_refuses_disabled_before_session.2 "srv/tool" [("*/*", "cfg")]
     ["srv"] (fun _ _ => true) true (fun _ => true) "srv" "tool" (by decide)
     ⟨("*/*", "cfg"), by simp,
      callCommand_refuses_disabled_before_session.1 "srv" "tool"⟩⟩

/-- Pool equation: acquiring an absent key opens a fresh session and
appends the new entry. -/
theorem acquire_eq_none (digest : String → String) (s : PoolState)
    (name : String) (config : Json) (src : String) (now : Nat)
    (hl : lookupKey name s.pool = none) :
    ConnectionPool.acquire digest s name config src now =
      (⟨s.nextConnection, false, false⟩,
       { s with
           nextConnection := s.nextConnection + 1
           pool := s.pool ++
             [(name, ⟨s.nextConnection, config, src,
               computeConfigHash digest config, now, now⟩)] }) := by
  unfold ConnectionPool.acquire
  rw [hl]

/-- Pool equation: acquiring a present key with an unchanged hash reuses the
session and stamps `lastUsed`. -/
theorem acquire_eq_reuse (digest : String → String) (s : PoolState)
    (name : String) (config : Json) (src : String) (now : Nat)
    (existing : PoolEntry) (hl : lookupKey name s.pool = some existing)
    (hh : existing.configHash = computeConfigHash digest config) :
    ConnectionPool.acquire digest s name config src now =
      (⟨existing.connection, true, false⟩,
       { s with pool := touchEntry name now s.pool }) := by
  unfold ConnectionPool.acquire
  rw [hl]
  simp [hh]

/-- Pool equation: acquiring a present key with a changed hash closes the
old session, drops the entry and opens a fresh one. -/
theorem acquire_eq_reconnect (digest : String → String) (s : PoolState)
    (name : String) (config : Json) (src : String) (now : Nat)
    (existing : PoolEntry) (hl : lookupKey name s.pool = some existing)
    (hh : existing.configHash ≠ computeConfigHash digest config) :
    ConnectionPool.acquire digest s name config src now =
      (⟨s.nextConnection, false, true⟩,
       { s with
           closed := s.closed ++ [existing.connection]
           nextConnection := s.nextConnection + 1
           pool := eraseKey name s.pool ++
             [(name, ⟨s.nextConnection, config, src,
               computeConfigHash digest config, now, now⟩)] }) := by
  unfold ConnectionPool.acquire
  rw [hl]
  simp [hh]

/-- Pool equation: releasing an absent key does nothing. -/
theorem release_eq_none (s : PoolState) (name : String)
    (hl : lookupKey name s.pool = none) :
    ConnectionPool.release s name = (false, s) := by
  unfold ConnectionPool.release
  rw [hl]

/-- Pool equation: releasing a present key closes its session and drops the
entry. -/
theorem release_eq_some (s : PoolState) (name : String) (e : PoolEntry)
    (hl : lookupKey name s.pool = some e) :
    ConnectionPool.release s name =
      (true, { s with closed := s.closed ++ [e.connection]
                      pool := eraseKey name s.pool }) := by
  unfold ConnectionPool.release
  rw [hl]

/-- Pool helper: looking up the touched key yields the entry with `lastUsed`
updated. -/
theorem lookupKey_touchEntry (name : String) (now : Nat)
    (l : List (String × PoolEntry)) :
    lookupKey name (touchEntry name now l) =
      (lookupKey name l).map (fun e => { e with lastUsed := now }) := by
  induction l with
  | nil => rfl
  | cons q t ih =>
    rcases q with ⟨k, v⟩
    by_cases h : k = name
    · subst h
      simp [touchEntry, lookupKey]
    · simp [touchEntry, lookupKey, h, ih]

/-- Pool helper: erasing a key removes it from lookup. -/
theorem lookupKey_eraseKey_self (name : String)
    (l : List (String × PoolEntry)) :
    lookupKey name (eraseKey name l) = none := by
  induction l with
  | nil => rfl
  | cons q t ih =>
    rcases q with ⟨k, v⟩
    by_cases h : k = name
    · subst h
      simp [eraseKey, lookupKey] at ih ⊢
      exact ih
    · simp [eraseKey, lookupKey, h] at ih ⊢
      exact ih

/-- Pool helper: lookup skips a part of the map without the key. -/
theorem lookupKey_append_right (name : String)
    (l1 l2 : List (String × PoolEntry)) (h : lookupKey name l1 = none) :
    lookupKey name (l1 ++ l2) = lookupKey name l2 := by
  induction l1 with
  | nil => rfl
  | cons q t ih =>
    by_cases hq : q.1 = name
    · simp [lookupKey, hq] at h
    · simp only [lookupKey, if_neg hq] at h
      simpa [lookupKey, hq] using ih h

/-- Pool helper: a successful lookup is a member of the map. -/
theorem lookupKey_mem (name : String) (l : List (String × PoolEntry))
    (e : PoolEntry) (h : lookupKey name l = some e) : (name, e) ∈ l := by
  induction l with
  | nil => cases h
  | cons q t ih =>
    rcases q with ⟨k, v⟩
    by_cases hq : k = name
    · simp only [lookupKey, if_pos hq] at h
      cases h
      exact List.mem_cons.mpr (Or.inl (by rw [hq]))
    · simp only [lookupKey, if_neg hq] at h
      exact List.mem_cons_of_mem _ (ih h)

/-- Pool helper: touching a key preserves every entry's config, hash and
session handle. -/
theorem touchEntry_mem (name : String) (now : Nat)
    (l : List (String × PoolEntry)) (p : String × PoolEntry)
    (hp : p ∈ touchEntry name now l) :
    ∃ q ∈ l, p.2.configHash = q.2.configHash ∧ p.2.config = q.2.config ∧
      p.2.connection = q.2.connection := by
  induction l with
  | nil => simp [touchEntry] at hp
  | cons q t ih =>
    rcases q with ⟨k, v⟩
    by_cases h : k = name
    · subst h
      simp only [touchEntry, if_pos rfl] at hp
      rcases List.mem_cons.mp hp with h1 | h1
      · subst h1
        exact ⟨(k, v), List.mem_cons_self _ _, rfl, rfl, rfl⟩
      · exact ⟨p, List.mem_cons_of_mem _ h1, rfl, rfl, rfl⟩
    · simp only [touchEntry, if_neg h] at hp
      rcases List.mem_cons.mp hp with h1 | h1
      · subst h1
        exact ⟨(k, v), List.mem_cons_self _ _, rfl, rfl, rfl⟩
      · rcases ih h1 with ⟨q, hq, hh⟩
        exact ⟨q, List.mem_cons_of_mem _ hq, hh⟩

/-- Helper for C2: every pool operation preserves the hash invariant. -/
theorem hashInv_step {digest : String → String} {s t : PoolState}
    (hinv : HashInv digest s) (hstep : PoolStep digest s t) :
    HashInv digest t := by
  cases hstep with
  | acquireStep name config src now =>
    rcases Option.eq_none_or_eq_some (lookupKey name s.pool) with hl | ⟨existing, hl⟩
    · rw [acquire_eq_none digest s name config src now hl]
      intro p hp
      rcases List.mem_append.mp hp with h1 | h1
      · exact hinv p h1
      · rcases List.mem_singleton.mp h1 with rfl
        rfl
    · by_cases hh : existing.configHash = computeConfigHash digest config
      · rw [acquire_eq_reuse digest s name config src now existing hl hh]
        intro p hp
        rcases touchEntry_mem name now s.pool p hp with ⟨q, hq, h1, h2, _⟩
        rw [h1, h2]
        exact hinv q hq
      · rw [acquire_eq_reconnect digest s name config src now existing hl hh]
        intro p hp
        rcases List.mem_append.mp hp with h1 | h1
        · exact hinv p (List.mem_filter.mp h1).1
        · rcases List.mem_singleton.mp h1 with rfl
          rfl
  | releaseStep name =>
    rcases Option.eq_none_or_eq_some (lookupKey name s.pool) with hl | ⟨e, hl⟩
    · rw [release_eq_none s name hl]
      exact hinv
    · rw [release_eq_some s name e hl]
      intro p hp
      exact hinv p (List.mem_filter.mp hp).1
  | releaseAllStep =>
    intro p hp
    simp [ConnectionPool.releaseAll] at hp
  | evictStep name now e hlook hidle =>
    rw [release_eq_some s name e hlook]
    intro p hp
    exact hinv p (List.mem_filter.mp hp).1

/-- Helper for C2 and C1: the hash invariant holds in every reachable pool
state. -/
theorem hashInv_reachable (digest : String → String) (idleMs : Nat)
    (s : PoolState) (h : PoolReachable digest idleMs s) : HashInv digest s := by
  induction h with
  | refl => intro p hp; cases hp
  | tail _ hstep ih => exact hashInv_step ih hstep

/-- C2: in every reachable pool state — after any sequence of acquires,
releases, releaseAll and idle evictions — every stored entry's `configHash`
equals `computeConfigHash` of its stored config (the recursively-key-sorted
digest). -/
theorem pool_hash_invariant (digest : String → String) (idleMs : Nat)
    (s : PoolState) (h : PoolReachable digest idleMs s) :
    ∀ p ∈ s.pool, p.2.configHash = computeConfigHash digest p.2.config :=
  hashInv_reachable digest idleMs s h

/-- C2 witness: the state reached by one acquire from the empty pool
satisfies the invariant at its single entry. -/
theorem pool_hash_invariant_witness :
    ("srv", sampleAcquiredEntry) ∈
      (ConnectionPool.acquire id (initPool 300000) "srv" sampleConfigA
        "cfg" 5).2.pool ∧
    sampleAcquiredEntry.configHash =
      computeConfigHash id sampleAcquiredEntry.config :=
  ⟨by
    rw [acquire_eq_none id (initPool 300000) "srv" sampleConfigA "cfg" 5 rfl]
    simp [initPool, sampleAcquiredEntry],
   pool_hash_invariant id 300000 _
     (Relation.ReflTransGen.single
       (PoolStep.acquireStep (initPool 300000) "srv" sampleConfigA "cfg" 5))
     ("srv", sampleAcquiredEntry)
     (by
       rw [acquire_eq_none id (initPool 300000) "srv" sampleConfigA "cfg" 5 rfl]
       simp [initPool, sampleAcquiredEntry])⟩

/-- Helper for C1: every pool operation preserves the freshness bound. -/
theorem connBound_step {digest : String → String} {s t : PoolState}
    (hb : ConnBound s) (hstep : PoolStep digest s t) : ConnBound t := by
  cases hstep with
  | acquireStep name config src now =>
    rcases Option.eq_none_or_eq_some (lookupKey name s.pool) with hl | ⟨existing, hl⟩
    · rw [acquire_eq_none digest s name config src now hl]
      intro p hp
      rcases List.mem_append.mp hp with h1 | h1
      · exact Nat.lt_succ_of_lt (hb p h1)
      · rcases List.mem_singleton.mp h1 with rfl
        exact Nat.lt_succ_self _
    · by_cases hh : existing.configHash = computeConfigHash digest config
      · rw [acquire_eq_reuse digest s name config src now existing hl hh]
        intro p hp
        rcases touchEntry_mem name now s.pool p hp with ⟨q, hq, _, _, hconn⟩
        rw [hconn]
        exact hb q hq
      · rw [acquire_eq_reconnect digest s name config src now existing hl hh]
        intro p hp
        rcases List.mem_append.mp hp with h1 | h1
        · exact Nat.lt_succ_of_lt (hb p (List.mem_filter.mp h1).1)
        · rcases List.mem_singleton.mp h1 with rfl
          exact Nat.lt_succ_self _
  | releaseStep name =>
    rcases Option.eq_none_or_eq_some (lookupKey name s.pool) with hl | ⟨e, hl⟩
    · rw [release_eq_none s name hl]
      exact hb
    · rw [release_eq_some s name e hl]
      intro p hp
      exact hb p (List.mem_filter.mp hp).1
  | releaseAllStep =>
    intro p hp
    simp [ConnectionPool.releaseAll] at hp
  | evictStep name now e hlook hidle =>
    rw [release_eq_some s name e hlook]
    intro p hp
    exact hb p (List.mem_filter.mp hp).1

/-- Helper for C1: the freshness bound holds in every reachable pool state. -/
theorem connBound_reachable (digest : String → String) (idleMs : Nat)
    (s : PoolState) (h : PoolReachable digest idleMs s) : ConnBound s := by
  induction h with
  | refl => intro p hp; cases hp
  | tail _ hstep ih => exact connBound_step ih hstep

/-- Helper for C1: after any acquire, the key holds an entry carrying the
returned session and the hash of the supplied config. -/
theorem acquire_lookup (digest : String → String) (s : PoolState)
    (name : String) (config : Json) (src : String) (now : Nat) :
    ∃ e, lookupKey name
        (ConnectionPool.acquire digest s name config src now).2.pool = some e ∧
      e.connection = (ConnectionPool.acquire digest s name config src now).1.connection ∧
      e.configHash = computeConfigHash digest config := by
  rcases Option.eq_none_or_eq_some (lookupKey name s.pool) with hl | ⟨existing, hl⟩
  · rw [acquire_eq_none digest s name config src now hl]
    refine ⟨⟨s.nextConnection, config, src, computeConfigHash digest config,
      now, now⟩, ?_, rfl, rfl⟩
    rw [show ({ s with
        nextConnection := s.nextConnection + 1
        pool := s.pool ++ [(name, ⟨s.nextConnection, config, src,
          computeConfigHash digest config, now, now⟩)] } : PoolState).pool =
      s.pool ++ [(name, ⟨s.nextConnection, config, src,
        computeConfigHash digest config, now, now⟩)] from rfl]
    rw [lookupKey_append_right name s.pool _ hl]
    simp [lookupKey]
  · by_cases hh : existing.configHash = computeConfigHash digest config
    · rw [acquire_eq_reuse digest s name config src now existing hl hh]
      refine ⟨{ existing with lastUsed := now }, ?_, rfl, hh⟩
      rw [show ({ s with pool := touchEntry name now s.pool } : PoolState).pool =
        touchEntry name now s.pool from rfl]
      rw [lookupKey_touchEntry, hl]
      rfl
    · rw [acquire_eq_reconnect digest s name config src now existing hl hh]
      refine ⟨⟨s.nextConnection, config, src, computeConfigHash digest config,
        now, now⟩, ?_, rfl, rfl⟩
      rw [show ({ s with
          closed := s.closed ++ [existing.connection]
          nextConnection := s.nextConnection + 1
          pool := eraseKey name s.pool ++ [(name, ⟨s.nextConnection, config,
            src, computeConfigHash digest config, now, now⟩)] } : PoolState).pool =
        eraseKey name s.pool ++ [(name, ⟨s.nextConnection, config, src,
          computeConfigHash digest config, now, now⟩)] from rfl]
      rw [lookupKey_append_right name _ _ (lookupKey_eraseKey_self name s.pool)]
      simp [lookupKey]

/-- C1: the pool acquire contract.  After a successful `acquire(k, c1)`, a
second `acquire(k, c2)` with the same hash returns the very same session
with `alreadyConnected = true` and `reconnected = false`, opens no new
connection and closes none, stamps the entry's `lastUsed` to the second
call's clock and leaves every other field (`startedAt` included) unchanged;
with a different hash it closes the old session, removes the old entry, and
returns a fresh, distinct session with `alreadyConnected = false` and
`reconnected = true`, the new entry carrying the new hash and fresh
`startedAt = lastUsed = now`. -/
theorem acquire_contract (digest : String → String) (idleMs : Nat)
    (s : PoolState) (hreach : PoolReachable digest idleMs s)
    (k : String) (c1 c2 : Json) (src1 src2 : String) (now1 now2 : Nat)
    (r1 : AcquireResult) (s1 : PoolState) (r2 : AcquireResult) (s2 : PoolState)
    (h1 : ConnectionPool.acquire digest s k c1 src1 now1 = (r1, s1))
    (h2 : ConnectionPool.acquire digest s1 k c2 src2 now2 = (r2, s2)) :
    (computeConfigHash digest c2 = computeConfigHash digest c1 →
      r2.connection = r1.connection ∧ r2.alreadyConnected = true ∧
      r2.reconnected = false ∧ s2.nextConnection = s1.nextConnection ∧
      s2.closed = s1.closed ∧
      (∃ e1, lookupKey k s1.pool = some e1 ∧
        lookupKey k s2.pool = some { e1 with lastUsed := now2 })) ∧
    (computeConfigHash digest c2 ≠ computeConfigHash digest c1 →
      r1.connection ∈ s2.closed ∧ r2.connection ≠ r1.connection ∧
      r2.alreadyConnected = false ∧ r2.reconnected = true ∧
      (∃ e2, lookupKey k s2.pool = some e2 ∧ e2.connection = r2.connection ∧
        e2.configHash = computeConfigHash digest c2 ∧
        e2.startedAt = now2 ∧ e2.lastUsed = now2)) := by
  obtain ⟨e1, hle1, hconn1, hhash1⟩ := acquire_lookup digest s k c1 src1 now1
  rw [h1] at hle1 hconn1
  replace hle1 : lookupKey k s1.pool = some e1 := hle1
  replace hconn1 : e1.connection = r1.connection := hconn1
  constructor
  · intro hc
    have hh : e1.configHash = computeConfigHash digest c2 := by rw [hhash1, hc]
    have heq := acquire_eq_reuse digest s1 k c2 src2 now2 e1 hle1 hh
    rw [h2] at heq
    injection heq with hr2 hs2
    refine ⟨?_, ?_, ?_, ?_, ?_, e1, hle1, ?_⟩
    · rw [hr2]
      exact hconn1
    · rw [hr2]
    · rw [hr2]
    · rw [hs2]
    · rw [hs2]
    · rw [hs2]
      show lookupKey k (touchEntry k now2 s1.pool) = _
      rw [lookupKey_touchEntry, hle1]
      rfl
  · intro hc
    have hh : e1.configHash ≠ computeConfigHash digest c2 := by
      rw [hhash1]
      exact fun e => hc e.symm
    have heq := acquire_eq_reconnect digest s1 k c2 src2 now2 e1 hle1 hh
    rw [h2] at heq
    injection heq with hr2 hs2
    have hreach1 : PoolReachable digest idleMs s1 := by
      have hr := Relation.ReflTransGen.tail hreach
        (PoolStep.acquireStep s k c1 src1 now1)
      rwa [h1] at hr
    have hlt : e1.connection < s1.nextConnection :=
      connBound_reachable digest idleMs s1 hreach1 _
        (lookupKey_mem k s1.pool e1 hle1)
    refine ⟨?_, ?_, ?_, ?_, ?_⟩
    · rw [hs2, ← hconn1]
      show e1.connection ∈ s1.closed ++ [e1.connection]
      simp
    · rw [hr2, ← hconn1]
      exact Nat.ne_of_gt hlt
    · rw [hr2]
    · rw [hr2]
    · refine ⟨⟨s1.nextConnection, c2, src2, computeConfigHash digest c2,
        now2, now2⟩, ?_, ?_, rfl, rfl, rfl⟩
      · rw [hs2]
        show lookupKey k (eraseKey k s1.pool ++ _) = _
        rw [lookupKey_append_right k _ _ (lookupKey_eraseKey_self k s1.pool)]
        simp [lookupKey]
      · rw [hr2]

/-- C1 witness: on the empty pool, acquiring `srv` with config A and then
with config B (different hashes, identity digest) closes session 0 and
returns the distinct fresh session 1 with `reconnected = true`. -/
theorem acquire_contract_witness :
    computeConfigHash id sampleConfigB ≠ computeConfigHash id sampleConfigA ∧
    ((⟨0, false, false⟩ : AcquireResult).connection ∈ sampleStateReconnect.closed ∧
     (⟨1, false, true⟩ : AcquireResult).connection ≠
       (⟨0, false, false⟩ : AcquireResult).connection ∧
     (⟨1, false, true⟩ : AcquireResult).alreadyConnected = false ∧
     (⟨1, false, true⟩ : AcquireResult).reconnected = true ∧
     (∃ e2, lookupKey "srv" sampleStateReconnect.pool = some e2 ∧
       e2.connection = (⟨1, false, true⟩ : AcquireResult).connection ∧
       e2.configHash = computeConfigHash id sampleConfigB ∧
       e2.startedAt = 2 ∧ e2.lastUsed = 2)) := by
  have hne : computeConfigHash id sampleConfigB ≠ computeConfigHash id sampleConfigA := by
    simp [computeConfigHash, sampleConfigA, sampleConfigB, sortObjectKeys,
      sortJsonFields, sortFieldsByKey, insertField, serialize, serializeFields,
      jsonQuote, escapeJsonChar]
    decide
  have h1w : ConnectionPool.acquire id (initPool 300000) "srv" sampleConfigA
      "cfg" 1 = (⟨0, false, false⟩, samplePoolAfterFirst) := by
    rw [acquire_eq_none id (initPool 300000) "srv" sampleConfigA "cfg" 1 rfl]
    rfl
  have h2w : ConnectionPool.acquire id samplePoolAfterFirst "srv" sampleConfigB
      "cfg" 2 = (⟨1, false, true⟩, sampleStateReconnect) := by
    rw [acquire_eq_reconnect id samplePoolAfterFirst "srv" sampleConfigB "cfg" 2
      sampleEntryC1 rfl (fun e => hne e.symm)]
    rfl
  exact ⟨hne,
    (acquire_contract id 300000 (initPool 300000) Relation.ReflTransGen.refl
      "srv" sampleConfigA sampleConfigB "cfg" "cfg" 1 2 ⟨0, false, false⟩
      samplePoolAfterFirst ⟨1, false, true⟩ sampleStateReconnect h1w h2w).2 hne⟩

/-- Helper for C3: the initial runner state satisfies the invariant. -/
theorem runnerInv_init {T R : Type} (items : List T) (f : T → Nat → R)
    (C : Nat) : RunnerInv items f C (initRun R C items.length) := by
  refine ⟨by simp [initRun], by simp [initRun], Nat.zero_le _, ?_, ?_, ?_⟩
  · intro i hi
    exact absurd hi (Nat.not_lt_zero i)
  · intro w i hw
    have h := List.eq_of_mem_replicate (List.getElem?_mem hw)
    simp at h
  · rintro ⟨w, hw⟩
    have h := List.eq_of_mem_replicate (List.getElem?_mem hw)
    simp at h

/-- Helper for C3: every runner transition preserves the invariant. -/
theorem runnerInv_step {T R : Type} {items : List T} {f : T → Nat → R}
    {C : Nat} {s t : RunState R} (hinv : RunnerInv items f C s)
    (hstep : RunnerStep items f s t) : RunnerInv items f C t := by
  obtain ⟨hrl, hwl, hcle, hres, hawait, hdn⟩ := hinv
  cases hstep with
  | claim w hw hc =>
    have hwlt : w < s.workers.length := by
      rcases List.getElem?_eq_some.mp hw with ⟨h, _⟩
      exact h
    refine ⟨hrl, by simpa using hwl, hc, ?_, ?_, ?_⟩
    · intro i hi
      rcases Nat.lt_or_eq_of_le (Nat.le_of_lt_succ hi) with hi2 | hi2
      · rcases hres i hi2 with h | ⟨w2, hw2⟩
        · exact Or.inl h
        · have hne : w2 ≠ w := by
            intro e
            rw [e] at hw2
            have hcontra := hw.symm.trans hw2
            simp at hcontra
          exact Or.inr ⟨w2, by
            rw [List.getElem?_set_ne (Ne.symm hne)]
            exact hw2⟩
      · subst hi2
        exact Or.inr ⟨w, by rw [List.getElem?_set_self hwlt]⟩
    · intro w2 i hw2
      by_cases he : w2 = w
      · subst he
        rw [List.getElem?_set_self hwlt] at hw2
        injection hw2 with h
        injection h with h2
        show i < s.counter + 1
        omega
      · rw [List.getElem?_set_ne (Ne.symm he)] at hw2
        exact Nat.lt_succ_of_lt (hawait w2 i hw2)
    · rintro ⟨w2, hw2⟩
      by_cases he : w2 = w
      · subst he
        rw [List.getElem?_set_self hwlt] at hw2
        simp at hw2
      · rw [List.getElem?_set_ne (Ne.symm he)] at hw2
        exact Nat.le_succ_of_le (hdn ⟨w2, hw2⟩)
  | finish w hw hc =>
    have hwlt : w < s.workers.length := by
      rcases List.getElem?_eq_some.mp hw with ⟨h, _⟩
      exact h
    refine ⟨hrl, by simpa using hwl, hcle, ?_, ?_, fun _ => hc⟩
    · intro i hi
      rcases hres i hi with h | ⟨w2, hw2⟩
      · exact Or.inl h
      · have hne : w2 ≠ w := by
          intro e
          rw [e] at hw2
          have hcontra := hw.symm.trans hw2
          simp at hcontra
        exact Or.inr ⟨w2, by
          rw [List.getElem?_set_ne (Ne.symm hne)]
          exact hw2⟩
    · intro w2 i hw2
      by_cases he : w2 = w
      · subst he
        rw [List.getElem?_set_self hwlt] at hw2
        simp at hw2
      · rw [List.getElem?_set_ne (Ne.symm he)] at hw2
        exact hawait w2 i hw2
  | resolve w i hw =>
    have hwlt : w < s.workers.length := by
      rcases List.getElem?_eq_some.mp hw with ⟨h, _⟩
      exact h
    have hic : i < s.counter := hawait w i hw
    have hirlt : i < s.results.length := by
      rw [hrl]
      exact lt_of_lt_of_le hic hcle
    refine ⟨by simpa using hrl, by simpa using hwl, hcle, ?_, ?_, ?_⟩
    · intro j hj
      by_cases hji : j = i
      · subst hji
        exact Or.inl (by rw [List.getElem?_set_self hirlt])
      · rcases hres j hj with h | ⟨w2, hw2⟩
        · exact Or.inl (by
            rw [List.getElem?_set_ne (fun e => hji e.symm)]
            exact h)
        · have hne : w2 ≠ w := by
            intro e
            rw [e] at hw2
            have hcontra := hw.symm.trans hw2
            injection hcontra with h3
            injection h3 with h4
            exact hji h4.symm
          exact Or.inr ⟨w2, by
            rw [List.getElem?_set_ne (Ne.symm hne)]
            exact hw2⟩
    · intro w2 j hw2
      by_cases he : w2 = w
      · subst he
        rw [List.getElem?_set_self hwlt] at hw2
        simp at hw2
      · rw [List.getElem?_set_ne (Ne.symm he)] at hw2
        exact hawait w2 j hw2
    · rintro ⟨w2, hw2⟩
      by_cases he : w2 = w
      · subst he
        rw [List.getElem?_set_self hwlt] at hw2
        simp at hw2
      · rw [List.getElem?_set_ne (Ne.symm he)] at hw2
        exact hdn ⟨w2, hw2⟩

/-- Helper for C3: the invariant holds in every reachable runner state. -/
theorem runnerInv_reachable {T R : Type} (items : List T) (f : T → Nat → R)
    (C : Nat) (s : RunState R) (h : RunnerReachable items f C s) :
    RunnerInv items f C s := by
  induction h with
  | refl => exact runnerInv_init items f C
  | tail _ hstep ih => exact runnerInv_step ih hstep

/-- C3: order preservation of the concurrency runner.  For every item list,
processor and ceiling `C ≥ 1`, the runner starts `min(C, N)` workers, and in
every reachable finished state (all workers exited, under any interleaving)
the result array has length `N` and its `i`-th slot holds the processor's
result for the `i`-th item; for `N = 0` the initial state already has an
empty result array and zero workers. -/
theorem processWithConcurrency_order {T R : Type} (items : List T)
    (f : T → Nat → R) (C : Nat) (hC : 1 ≤ C) (s : RunState R)
    (hreach : RunnerReachable items f C s) (hdone : RunnerDone s) :
    s.results.length = items.length ∧
    (∀ i : Nat, ∀ h : i < items.length,
      s.results[i]? = some (some (f (items.get ⟨i, h⟩) i))) ∧
    (initRun R C items.length).workers.length = min C items.length ∧
    (items.length = 0 →
      (initRun R C items.length).results = [] ∧
      (initRun R C items.length).workers = []) := by
  obtain ⟨hrl, hwl, hcle, hres, hawait, hdn⟩ :=
    runnerInv_reachable items f C s hreach
  refine ⟨hrl, ?_, by simp [initRun], fun h0 => by simp [initRun, h0]⟩
  intro i hi
  have hNpos : 0 < items.length := Nat.lt_of_le_of_lt (Nat.zero_le i) hi
  have hw0 : 0 < s.workers.length := by
    rw [hwl]
    exact Nat.lt_min.mpr ⟨by omega, hNpos⟩
  obtain ⟨st, hst⟩ : ∃ st, s.workers[0]? = some st :=
    ⟨_, List.getElem?_eq_getElem hw0⟩
  have hstd : st = WStatus.done := hdone st (List.getElem?_mem hst)
  have hNc : items.length ≤ s.counter := hdn ⟨0, by rw [hst, hstd]⟩
  have hic : i < s.counter := lt_of_lt_of_le hi hNc
  rcases hres i hic with h | ⟨w2, hw2⟩
  · rw [h]
    simp [List.getElem?_eq_getElem hi, List.get_eq_getElem]
  · have hcontra := hdone _ (List.getElem?_mem hw2)
    simp at hcontra

/-- C3 witness: the one-item run with ceiling 1 (claim, resolve, finish)
reaches the finished state with the single correct result. -/
theorem processWithConcurrency_order_witness :
    (1 : Nat) ≤ 1 ∧ sampleRunFinal.results.length = List.length [10] ∧
    sampleRunFinal.results[0]? = some (some 10) := by
  have h1 : RunnerStep [10] (fun x i => x + i) (initRun Nat 1 1)
      { counter := 1, results := [none], workers := [WStatus.awaiting 0] } :=
    RunnerStep.claim (initRun Nat 1 1) 0 rfl (by decide)
  have h2 : RunnerStep [10] (fun x i => x + i)
      { counter := 1, results := [none], workers := [WStatus.awaiting 0] }
      { counter := 1, results := [some 10], workers := [WStatus.running] } :=
    RunnerStep.resolve _ 0 0 rfl
  have h3 : RunnerStep [10] (fun x i => x + i)
      { counter := 1, results := [some 10], workers := [WStatus.running] }
      sampleRunFinal :=
    RunnerStep.finish _ 0 rfl (by decide)
  have hreach : RunnerReachable [10] (fun x i => x + i) 1 sampleRunFinal :=
    Relation.ReflTransGen.tail
      (Relation.ReflTransGen.tail (Relation.ReflTransGen.single h1) h2) h3
  have hdone : RunnerDone sampleRunFinal := by
    intro w hw
    simpa [sampleRunFinal] using hw
  have hmain := processWithConcurrency_order [10] (fun x i => x + i) 1
    (le_refl 1) sampleRunFinal hreach hdone
  refine ⟨le_refl 1, hmain.1, ?_⟩
  have h0 := hmain.2.1 0 (by decide)
  simpa using h0

/-- Helper for C5: one failing iteration whose retry gate passes sleeps for
the clamped delay and continues. -/
theorem withRetryAux_retry {T : Type} (config : RetryConfig)
    (outcome : Nat → Except ErrVal T) (elapsedTop elapsedFail : Nat → Rat)
    (rand : Nat → Rat) (a fuel : Nat) (last : Option ErrVal) (e : ErrVal)
    (htop : elapsedTop a < config.totalBudgetMs)
    (hout : outcome a = Except.error e)
    (hm : a < config.maxRetries) (ht : isTransientError e = true)
    (hb : 1000 < config.totalBudgetMs - elapsedFail a) :
    withRetryAux config outcome elapsedTop elapsedFail rand a (fuel + 1) last =
      (RetryEvent.attemptEv a ::
        RetryEvent.sleepEv (min ((calculateDelay a config (rand a) : Int) : Rat)
          (config.totalBudgetMs - elapsedFail a - 1000)) ::
        (withRetryAux config outcome elapsedTop elapsedFail rand
          (a + 1) fuel (some e)).1,
       (withRetryAux config outcome elapsedTop elapsedFail rand
         (a + 1) fuel (some e)).2) := by
  simp only [withRetryAux, hout]
  rw [if_neg (not_le.mpr htop), if_pos ⟨hm, ht, hb⟩]

/-- Helper for C5: one failing iteration whose retry gate fails surfaces
that very error with no sleep and no further attempt. -/
theorem withRetryAux_no_retry {T : Type} (config : RetryConfig)
    (outcome : Nat → Except ErrVal T) (elapsedTop elapsedFail : Nat → Rat)
    (rand : Nat → Rat) (a fuel : Nat) (last : Option ErrVal) (e : ErrVal)
    (htop : elapsedTop a < config.totalBudgetMs)
    (hout : outcome a = Except.error e)
    (hng : ¬(a < config.maxRetries ∧ isTransientError e = true ∧
      1000 < config.totalBudgetMs - elapsedFail a)) :
    withRetryAux config outcome elapsedTop elapsedFail rand a (fuel + 1) last =
      ([RetryEvent.attemptEv a], Except.error (some e)) := by
  simp only [withRetryAux, hout]
  rw [if_neg (not_le.mpr htop), if_neg hng]

/-- Helper for C5: when every attempt up to `maxRetries` fails transiently
with budget left, the loop ends by raising the last attempt's error. -/
theorem withRetryAux_exhaust {T : Type} (config : RetryConfig)
    (outcome : Nat → Except ErrVal T) (elapsedTop elapsedFail : Nat → Rat)
    (rand : Nat → Rat) (es : Nat → ErrVal)
    (hall : ∀ n, n ≤ config.maxRetries → elapsedTop n < config.totalBudgetMs ∧
      outcome n = Except.error (es n) ∧ isTransientError (es n) = true ∧
      1000 < config.totalBudgetMs - elapsedFail n) :
    ∀ fuel a : Nat, ∀ last : Option ErrVal, a ≤ config.maxRetries →
      a + fuel = config.maxRetries + 1 →
      (withRetryAux config outcome elapsedTop elapsedFail rand a fuel last).2 =
        Except.error (some (es config.maxRetries)) := by
  intro fuel
  induction fuel with
  | zero =>
    intro a last ha hsum
    exact absurd hsum (by omega)
  | succ fuel ih =>
    intro a last ha hsum
    obtain ⟨htop, hout, htrans, hbud⟩ := hall a ha
    rcases Nat.lt_or_eq_of_le ha with hlt | heq
    · rw [withRetryAux_retry config outcome elapsedTop elapsedFail rand a fuel
        last (es a) htop hout hlt htrans hbud]
      exact ih (a + 1) (some (es a)) (by omega) (by omega)
    · rw [withRetryAux_no_retry config outcome elapsedTop elapsedFail rand a
        fuel last (es a) htop hout (fun h => absurd h.1 (by omega))]
      rw [heq]

/-- C5: retry gating and surfacing.  A failing attempt is retried exactly
when the attempt count has not reached `maxRetries`, the error is transient,
and more than 1000 ms of the shared budget remains; the sleep before the
retry is the computed backoff delay clamped to the remaining budget minus
1000 ms.  When the gate fails the error just raised is surfaced with no
sleep and no further attempt — in particular a non-transient failure on the
first attempt propagates immediately — and when every attempt up to
`maxRetries` fails transiently within budget, the error raised is exactly
the last attempt's error. -/
theorem withRetry_gating {T : Type} (config : RetryConfig)
    (outcome : Nat → Except ErrVal T) (elapsedTop elapsedFail : Nat → Rat)
    (rand : Nat → Rat) :
    (∀ a fuel : Nat, ∀ last : Option ErrVal, ∀ e : ErrVal,
      elapsedTop a < config.totalBudgetMs → outcome a = Except.error e →
      a < config.maxRetries → isTransientError e = true →
      1000 < config.totalBudgetMs - elapsedFail a →
      withRetryAux config outcome elapsedTop elapsedFail rand a (fuel + 1) last =
        (RetryEvent.attemptEv a ::
          RetryEvent.sleepEv (min ((calculateDelay a config (rand a) : Int) : Rat)
            (config.totalBudgetMs - elapsedFail a - 1000)) ::
          (withRetryAux config outcome elapsedTop elapsedFail rand
            (a + 1) fuel (some e)).1,
         (withRetryAux config outcome elapsedTop elapsedFail rand
           (a + 1) fuel (some e)).2)) ∧
    (∀ a fuel : Nat, ∀ last : Option ErrVal, ∀ e : ErrVal,
      elapsedTop a < config.totalBudgetMs → outcome a = Except.error e →
      ¬(a < config.maxRetries ∧ isTransientError e = true ∧
        1000 < config.totalBudgetMs - elapsedFail a) →
      withRetryAux config outcome elapsedTop elapsedFail rand a (fuel + 1) last =
        ([RetryEvent.attemptEv a], Except.error (some e))) ∧
    (∀ e : ErrVal, elapsedTop 0 < config.totalBudgetMs →
      outcome 0 = Except.error e → isTransientError e = false →
      withRetry config outcome elapsedTop elapsedFail rand =
        ([RetryEvent.attemptEv 0], Except.error (some e))) ∧
    (∀ es : Nat → ErrVal,
      (∀ n, n ≤ config.maxRetries → elapsedTop n < config.totalBudgetMs ∧
        outcome n = Except.error (es n) ∧ isTransientError (es n) = true ∧
        1000 < config.totalBudgetMs - elapsedFail n) →
      (withRetry config outcome elapsedTop elapsedFail rand).2 =
        Except.error (some (es config.maxRetries))) := by
  refine ⟨withRetryAux_retry config outcome elapsedTop elapsedFail rand,
    withRetryAux_no_retry config outcome elapsedTop elapsedFail rand,
    ?_, ?_⟩
  · intro e htop hout htrans
    exact withRetryAux_no_retry config outcome elapsedTop elapsedFail rand 0
      config.maxRetries none e htop hout
      (fun h => by rw [htrans] at h; exact Bool.false_ne_true h.2.1)
  · intro es hall
    exact withRetryAux_exhaust config outcome elapsedTop elapsedFail rand es
      hall (config.maxRetries + 1) 0 none (Nat.zero_le _) (by omega)

/-- C5 witness: a non-transient first failure surfaces immediately with one
attempt and no sleep. -/
theorem withRetry_gating_witness :
    (0 : Rat) < 30000 ∧
    isTransientError ⟨none, "boom"⟩ = false ∧
    withRetry (T := Unit) ⟨3, 1000, 10000, 30000⟩
      (fun _ => Except.error ⟨none, "boom"⟩) (fun _ => 0) (fun _ => 0)
      (fun _ => 0) =
      ([RetryEvent.attemptEv 0], Except.error (some ⟨none, "boom"⟩)) :=
  ⟨by norm_num, by decide,
   (withRetry_gating ⟨3, 1000, 10000, 30000⟩
     (fun _ => Except.error ⟨none, "boom"⟩) (fun _ => 0) (fun _ => 0)
     (fun _ => 0)).2.2.1 ⟨none, "boom"⟩ (by norm_num) rfl (by decide)⟩

end Mcpx
